import Mathlib

/-
Verification development for the Garmin → Google Sheets daily rollup scripts
(`garmin-sheets-daily.py`, `garmin-sheets-daily2.py`).

The Python code is shallowly embedded: dynamic Python values become the
inductive `Dyn`; Python floats are modelled as exact rationals (`ℚ`) with
Python's `round(x, 2)` modelled as round-half-to-even on rationals;
code that can raise is modelled in `Except PyErr`; the worksheet is a list
of rows of cell values.
-/

namespace GarminSpec

/-- A dynamic Python value as it appears in the provider payloads and in the
cells written to the sheet. `null` is Python `None`; numbers are modelled as
exact rationals. -/
inductive Dyn where
  | null
  | num (q : ℚ)
  | str (s : String)
  | list (xs : List Dyn)
  | dict (kvs : List (String × Dyn))

/-- Python truthiness (`bool(x)`) for the payload shapes we model. -/
def truthy : Dyn → Bool
  | .null => false
  | .num q => q != 0
  | .str s => s != ""
  | .list xs => !xs.isEmpty
  | .dict kvs => !kvs.isEmpty

/-- Python `a or b` (short-circuit on truthiness). -/
def pyOr (a b : Dyn) : Dyn := if truthy a then a else b

/-- `x is None` test. -/
def isNullB : Dyn → Bool
  | .null => true
  | _ => false

/-- Lookup in a Python dict, modelled as an association list with unique keys
(dict insertion order preserved). -/
def dictGet? (kvs : List (String × Dyn)) (k : String) : Option Dyn :=
  (kvs.find? (fun p => p.1 == k)).map (·.2)

/-- Python exception kinds raised by the payload-handling code we model. -/
inductive PyErr where
  | attrErr
  | typeErr
  | keyErr
  | idxErr
  deriving Repr, DecidableEq

/-- `x.get(k)`: raises `AttributeError` unless `x` is a dict; a missing key
yields Python `None`. -/
def pyGet (x : Dyn) (k : String) : Except PyErr Dyn :=
  match x with
  | .dict kvs => .ok ((dictGet? kvs k).getD .null)
  | _ => .error .attrErr

/-- `x.get(k, d)`: dict lookup with an explicit default (the default is used
only when the key is missing, not when its value is `None`). -/
def pyGetD (x : Dyn) (k : String) (d : Dyn) : Except PyErr Dyn :=
  match x with
  | .dict kvs => .ok ((dictGet? kvs k).getD d)
  | _ => .error .attrErr

/-- Using a dynamic value in arithmetic: `TypeError` unless it is a number. -/
def toNum : Dyn → Except PyErr ℚ
  | .num q => .ok q
  | _ => .error .typeErr

/-- `xs[0]`: first element of a list; anything else raises. -/
def pyIndex0 : Dyn → Except PyErr Dyn
  | .list (x :: _) => .ok x
  | .list [] => .error .idxErr
  | _ => .error .typeErr

/-- An optional rational rendered as a Python value (`None` or a number). -/
def optDyn : Option ℚ → Dyn
  | none => .null
  | some q => .num q

/-- Python `str(x)` for the scalar values that reach the score-formatting
code (numeric rendering is modelled for integral values, which is what the
provider's score payloads contain). -/
def pyStr : Dyn → String
  | .null => "None"
  | .str s => s
  | .num q => if q.den == 1 then toString q.num else toString q
  | .list _ => "[...]"
  | .dict _ => "{...}"

/-- Round half to even to an integer (the rounding mode of Python's
`round`). -/
def rhEven (q : ℚ) : ℤ :=
  let f := ⌊q⌋
  let frac := q - f
  if frac < 1/2 then f
  else if 1/2 < frac then f + 1
  else if f % 2 = 0 then f else f + 1

/-- Python `round(x, 2)` modelled exactly on rationals. -/
def pyRound2 (q : ℚ) : ℚ := (rhEven (q * 100) : ℚ) / 100

/-- Python `round(x, 1)`. -/
def pyRound1 (q : ℚ) : ℚ := (rhEven (q * 10) : ℚ) / 10

/-- Python `round(x, 0)`. -/
def pyRound0 (q : ℚ) : ℚ := (rhEven q : ℚ)

-- ---------------------------------------------------------------------------
-- Calendar (models `datetime.date` and `timedelta(days=n)` arithmetic on the
-- proleptic Gregorian calendar)
-- ---------------------------------------------------------------------------

/-- A calendar date (`datetime.date`). -/
structure CalDate where
  y : Int
  m : Int
  d : Int
  deriving DecidableEq, Repr

/-- Days since the Unix epoch 1970-01-01 of a Gregorian calendar date
(the day-number arithmetic underlying `datetime.date` subtraction). -/
def daysFromCivil (dt : CalDate) : Int :=
  let y := if dt.m ≤ 2 then dt.y - 1 else dt.y
  let era : Int := Int.fdiv y 400
  let yoe := y - era * 400
  let mp := (dt.m + 9) % 12
  let doy := (153 * mp + 2) / 5 + dt.d - 1
  let doe := yoe * 365 + yoe / 4 - yoe / 100 + doy
  era * 146097 + doe - 719468

/-- Gregorian calendar date of a day number since the Unix epoch (inverse of
`daysFromCivil` on valid dates). -/
def civilFromDays (z0 : Int) : CalDate :=
  let z := z0 + 719468
  let era : Int := Int.fdiv z 146097
  let doe := z - era * 146097
  let yoe := (doe - doe / 1460 + doe / 36524 - doe / 146096) / 365
  let y := yoe + era * 400
  let doy := doe - (365 * yoe + yoe / 4 - yoe / 100)
  let mp := (5 * doy + 2) / 153
  let d := doy - (153 * mp + 2) / 5 + 1
  let m := mp + (if mp < 10 then 3 else -9)
  ⟨y + (if m ≤ 2 then 1 else 0), m, d⟩

/-- `d + timedelta(days=n)`. -/
def addDays (dt : CalDate) (n : Int) : CalDate :=
  civilFromDays (daysFromCivil dt + n)

/-- `daterange(start, end_exclusive)` (lines 44-48 of both scripts): yields
`start, start+1, ...` while strictly below `end_exclusive`, ascending. -/
def daterange (start endEx : CalDate) : List CalDate :=
  (List.range (daysFromCivil endEx - daysFromCivil start).toNat).map
    (fun i => civilFromDays (daysFromCivil start + (i : Int)))

/-- The window of dates `main` iterates over (lines 463-465 and 483 of
`garmin-sheets-daily.py`): `end` is today, or yesterday when `INCLUDE_TODAY`
is off; `start = end - (window_days - 1)`; the loop runs
`daterange(start, end + 1 day)`. -/
def windowDates (today : CalDate) (includeToday : Bool) (windowDays : Int) :
    List CalDate :=
  let endInc := if includeToday then today else addDays today (-1)
  let start := addDays endInc (-(windowDays - 1))
  daterange start (addDays endInc 1)

-- ---------------------------------------------------------------------------
-- Source Adapter: steps (`fetch_steps_for_date`, lines 279-289 of
-- `garmin-sheets-daily.py`)
-- ---------------------------------------------------------------------------

/-- `1609.34`, the meters-per-mile constant used by the scripts. -/
def mileRate : ℚ := 160934 / 100

/-- Body of the `try` block of `fetch_steps_for_date`: the provider response
(already `or []`-defaulted) is interpreted; any shape error raises. Returns
`(totalSteps, stepGoal, miles)` with `None` components as Python does. -/
def fetch_steps_body (resp : Dyn) : Except PyErr (Dyn × Dyn × Dyn) := do
  let arr := pyOr resp (.list [])
  if truthy arr then
    let e ← pyIndex0 arr
    let tdRaw ← pyGet e ("totalDistance")
    let td := pyOr tdRaw (.num 0)
    let tdq ← toNum (pyOr td (.num 0))
    let miles := pyRound2 (tdq / mileRate)
    let s1 ← pyGet e ("totalSteps")
    let s2 ← pyGet e ("stepGoal")
    pure (s1, s2, .num miles)
  else
    pure (.null, .null, .null)

/-- The steps adapter: the provider either raises (`.error`) or returns a
payload; every failure path is caught and becomes `(None, None, None)`. -/
def fetch_steps_for_date (resp : Except PyErr Dyn) : Dyn × Dyn × Dyn :=
  match resp.bind fetch_steps_body with
  | .ok v => v
  | .error _ => (.null, .null, .null)

-- ---------------------------------------------------------------------------
-- Source Adapter: sleep (`_format_score_value`, `_sleep_scores_from`,
-- `fetch_sleep_for_date`, lines 291-355 of `garmin-sheets-daily.py`)
-- ---------------------------------------------------------------------------

/-- `_format_score_value(source, key_src)` (lines 291-302): total — every
non-dict shape is guarded by `isinstance` checks and yields `None`. -/
def format_score_value (source : Dyn) (keySrc : String) : Dyn :=
  match source with
  | .dict kvs =>
    let item := pyOr ((dictGet? kvs keySrc).getD .null) (.dict [])
    match item with
    | .dict ikvs =>
      let score0 := (dictGet? ikvs ("score")).getD .null
      let score :=
        if isNullB score0 then
          match dictGet? ikvs ("value") with
          | some v => v
          | none => (dictGet? ikvs ("percentage")).getD .null
        else score0
      let qual :=
        match dictGet? ikvs ("qualifierKey") with
        | some v => v
        | none => (dictGet? ikvs ("qualifier")).getD .null
      let scoreStr := if isNullB score then "None" else pyStr score
      if isNullB qual then .str scoreStr
      else .str (scoreStr ++ "(" ++ pyStr qual ++ ")")
    | _ => .null
  | _ => .null

/-- The inner `qual(key)` helper of `_sleep_scores_from` (lines 308-310):
`(source.get(key) or {})` then `qualifierKey` / `qualifier` fallbacks; raises
if `source` (or a truthy non-dict entry) is not a dict. -/
def qualOf (source : Dyn) (k : String) : Except PyErr Dyn := do
  let v0 ← pyGet source k
  let v := pyOr v0 (.dict [])
  let a ← pyGet v ("qualifierKey")
  let b ← pyGet v ("qualifier")
  pure (pyOr a (pyOr b .null))

/-- The qualifier/score strings extracted by `_sleep_scores_from`. -/
structure SleepScores where
  overall : Dyn
  total_duration : Dyn
  stress : Dyn
  restlessness : Dyn
  awake_count_fmt : Dyn
  rem_percentage_fmt : Dyn
  light_percentage_fmt : Dyn
  deep_percentage_fmt : Dyn

/-- `_sleep_scores_from(data)` (lines 304-328). -/
def sleep_scores_from (data : Dyn) : Except PyErr SleepScores := do
  let s1 ← pyGet data ("sleepScores")
  let dto ← pyGetD data ("dailySleepDTO") (.dict [])
  let s2 ← pyGet dto ("sleepScores")
  let source := pyOr s1 (pyOr s2 (.dict []))
  let overall ← qualOf source ("overall")
  let totalDuration ← qualOf source ("totalDuration")
  let stress ← qualOf source ("stress")
  let restlessness ← qualOf source ("restlessness")
  let awakeCount := format_score_value source ("awakeCount")
  let remPct := format_score_value source ("remPercentage")
  let lightPct0 := format_score_value source ("lightPercentage")
  let deepPct0 := format_score_value source ("deepPercentage")
  let lightPct :=
    if isNullB lightPct0 then format_score_value source ("light_percentage")
    else lightPct0
  let deepPct :=
    if isNullB deepPct0 then format_score_value source ("deep_percentage")
    else deepPct0
  pure ⟨overall, totalDuration, stress, restlessness, awakeCount, remPct,
        lightPct, deepPct⟩

/-- `ms_to_local_iso` (lines 50-60): falsy input yields `None`; a numeric
epoch-millisecond timestamp is localized and formatted (the timezone and ISO
formatting are external collaborators — the value is modelled as the raw
millisecond count); any error inside the inner `try` yields `None`. -/
def ms_to_local_iso (v : Dyn) : Option ℚ :=
  if truthy v then
    match v with
    | .num q => some q
    | _ => none
  else none

/-- The dict returned by `fetch_sleep_for_date` on success; the adapter's
`except` branch returns `{}`, modelled as `SleepFrag.empty` (every field
reads back as absent). -/
structure SleepFrag where
  total_h : Option ℚ
  light_h : Option ℚ
  deep_h : Option ℚ
  rem_h : Option ℚ
  awake_h : Option ℚ
  resting_hr : Dyn
  start_local : Option ℚ
  end_local : Option ℚ
  scores : Option SleepScores

/-- The `{}` an exception turns into: every lookup yields absent. -/
def SleepFrag.empty : SleepFrag :=
  ⟨none, none, none, none, none, .null, none, none, none⟩

/-- `daily.get(k) or 0` coerced for arithmetic (the summands of `total` and
the per-stage hour fields, lines 334 and 344-348). -/
def getOr0 (daily : Dyn) (k : String) : Except PyErr ℚ := do
  let v ← pyGet daily k
  toNum (pyOr v (.num 0))

/-- Body of the `try` block of `fetch_sleep_for_date` (lines 332-353),
starting from the raw provider response (before the `or {}` default). -/
def fetch_sleep_body (resp : Dyn) : Except PyErr SleepFrag := do
  let data := pyOr resp (.dict [])
  let dailyRaw ← pyGet data ("dailySleepDTO")
  let daily := pyOr dailyRaw (.dict [])
  let deepS ← getOr0 daily ("deepSleepSeconds")
  let lightS ← getOr0 daily ("lightSleepSeconds")
  let remS ← getOr0 daily ("remSleepSeconds")
  let total := deepS + lightS + remS
  let sg1 ← pyGet daily ("sleepStartTimestampGMT")
  let sg2 ← pyGet data ("sleepStartTimestampGMT")
  let sg3 ← pyGet daily ("sleepStartTimestampLocal")
  let startMs := pyOr sg1 (pyOr sg2 sg3)
  let eg1 ← pyGet daily ("sleepEndTimestampGMT")
  let eg2 ← pyGet data ("sleepEndTimestampGMT")
  let eg3 ← pyGet daily ("sleepEndTimestampLocal")
  let endMs := pyOr eg1 (pyOr eg2 eg3)
  let scores ← sleep_scores_from data
  let lightS2 ← getOr0 daily ("lightSleepSeconds")
  let deepS2 ← getOr0 daily ("deepSleepSeconds")
  let remS2 ← getOr0 daily ("remSleepSeconds")
  let awakeS ← getOr0 daily ("awakeSleepSeconds")
  let rh1 ← pyGet data ("restingHeartRate")
  let rh2 ← pyGet daily ("restingHeartRate")
  pure { total_h := some (pyRound2 (total / 3600))
         light_h := some (pyRound2 (lightS2 / 3600))
         deep_h := some (pyRound2 (deepS2 / 3600))
         rem_h := some (pyRound2 (remS2 / 3600))
         awake_h := some (pyRound2 (awakeS / 3600))
         resting_hr := pyOr rh1 rh2
         start_local := ms_to_local_iso startMs
         end_local := ms_to_local_iso endMs
         scores := some scores }

/-- The sleep adapter: any provider exception or shape error is caught and
becomes the empty fragment `{}`. -/
def fetch_sleep_for_date (resp : Except PyErr Dyn) : SleepFrag :=
  match resp.bind fetch_sleep_body with
  | .ok f => f
  | .error _ => SleepFrag.empty

/-- A well-formed sleep payload carrying only the `dailySleepDTO` stage
seconds (absent stages are `None`), used to state the total-sleep claim. -/
def mkSleepPayload (deep light rem awake : Option ℚ) : Dyn :=
  .dict [(("dailySleepDTO"),
          .dict [(("deepSleepSeconds"), optDyn deep),
                 (("lightSleepSeconds"), optDyn light),
                 (("remSleepSeconds"), optDyn rem),
                 (("awakeSleepSeconds"), optDyn awake)])]

-- ---------------------------------------------------------------------------
-- Intensity minutes (`map_intensity_last_n`, lines 420-434)
-- ---------------------------------------------------------------------------

/-- One entry of the per-date intensity map. -/
structure IntenEntry where
  total : Option ℚ
  mod : Option ℚ
  vig : Option ℚ
  deriving Repr, DecidableEq

/-- The per-row computation of `map_intensity_last_n` (lines 426-431):
`total = (mod or 0) + 2*(vig or 0)` when at least one of moderate/vigorous is
not `None`, else `total = None`. -/
def intensity_entry (mod vig : Option ℚ) : IntenEntry :=
  let total :=
    if mod.isSome || vig.isSome then some (mod.getD 0 + 2 * vig.getD 0)
    else none
  ⟨total, mod, vig⟩

-- ---------------------------------------------------------------------------
-- Activity Rollup type aggregation (`aggregate_activities_by_date`,
-- lines 401-418 of `garmin-sheets-daily.py`; identical in
-- `garmin-sheets-daily2.py` lines 403-417)
-- ---------------------------------------------------------------------------

/-- Occurrences of a tag in the group's type list (`Counter` count). -/
def countOf (ts : List String) (t : String) : Nat :=
  ts.countP (fun x => x == t)

/-- The distinct tags of the list in order of first appearance — the key
order of `Counter(v["types"])` (dict insertion order). -/
def keysInOrder (ts : List String) : List String :=
  ts.foldl (fun acc t => if t ∈ acc then acc else acc ++ [t]) []

/-- `Counter(types).most_common(1)[0][0] if type_counts else ""`
(lines 406-407): the most frequent tag; `heapq.nlargest` is stable, so a tie
keeps the first-inserted (first-seen) key. Modelled as a left fold over the
keys in first-appearance order that replaces the best only on a strictly
larger count. -/
def primary_type (ts : List String) : String :=
  match keysInOrder ts with
  | [] => ""
  | k :: ks =>
    ks.foldl (fun best k2 => if countOf ts best < countOf ts k2 then k2 else best) k

/-- `" ".join(...)` (Python's separator-join). -/
def joinSp : List String → String
  | [] => ""
  | [s] => s
  | s :: rest => s ++ " " ++ joinSp rest

/-- Lexicographic order on code points — how Python compares strings in
`sorted`. -/
def lexLe : List Char → List Char → Bool
  | [], _ => true
  | _ :: _, [] => false
  | x :: xs, y :: ys =>
    if x.toNat < y.toNat then true
    else if y.toNat < x.toNat then false
    else lexLe xs ys

/-- String comparison by code points (Python's `<=` on `str`). -/
def strLe (a b : String) : Bool := lexLe a.data b.data

/-- The ordering relation `sorted` uses, as a proposition. -/
def strLeR (a b : String) : Prop := strLe a b = true

instance : DecidableRel strLeR := fun _ _ => inferInstanceAs (Decidable (_ = true))

/-- `sorted(set(types))` (line 408): the distinct tags sorted ascending by
code points. -/
def sortedUniqueTypes (ts : List String) : List String :=
  List.insertionSort strLeR (keysInOrder ts)

/-- `" ".join(sorted(set(v["types"])))` — the `types_unique` output. -/
def unique_types_str (ts : List String) : String :=
  joinSp (sortedUniqueTypes ts)

-- ---------------------------------------------------------------------------
-- Daily record construction (`props`, lines 526-578 of
-- `garmin-sheets-daily.py`)
-- ---------------------------------------------------------------------------

/-- The header row / column order of `garmin-sheets-daily.py`
(`SHEET_HEADERS`, lines 198-211, display titles from `P`). -/
def SHEET_HEADERS : List String :=
  ["Date", "weekday",
   "Activities (#)", "Activity Distance (mi)", "Activity Duration (min)", "Activity Calories",
   "Activity Names", "Activity Types", "primary_sport", "activity_types_unique",
   "Training Effect (list)", "Aerobic Effect (list)", "Anaerobic Effect (list)",
   "Steps", "Step Goal", "Walk Distance (mi)",
   "Sleep Total (h)", "Sleep Light (h)", "Sleep Deep (h)", "Sleep REM (h)", "Sleep Awake (h)",
   "Resting HR", "Sleep Start (local)", "Sleep End (local)",
   "Sleep Overall (q)", "Sleep Duration (q)", "Sleep Stress (q)", "Sleep Awake Count (q)",
   "Sleep REM % (q)", "Sleep Restlessness (q)", "Sleep Light % (q)", "Sleep Deep % (q)",
   "Stress Avg", "Stress Max", "Body Battery Avg", "Body Battery Min",
   "Intensity Minutes", "Intensity Moderate (min)", "Intensity Vigorous (min)", "HRV",
   "Weight (lb)"]

/-- `sleep.get("scores", {}) or {}).get(...)` projection: absent scores read
back as `None`. -/
def scoreField (o : Option SleepScores) (sel : SleepScores → Dyn) : Dyn :=
  match o with
  | some s => sel s
  | none => .null

/-- The per-date fetch results `main` gathers before building `props`
(lines 486-524): each field is the already-normalized adapter output for the
date being processed. -/
structure Fetched where
  steps : Dyn
  stepGoal : Dyn
  walkMi : Dyn
  sleep : SleepFrag
  stressAvg : Dyn
  stressMax : Dyn
  bbAvg : Dyn
  bbMin : Dyn
  intenTotal : Dyn
  intenMod : Dyn
  intenVig : Dyn
  hrv : Dyn
  weightLb : Dyn
  actCount : Dyn
  actDistMi : Dyn
  actDurMin : Dyn
  actCal : Dyn
  actNames : Dyn
  actTypes : Dyn
  actPrimary : Dyn
  actTypesUnique : Dyn
  actTe : Dyn
  actAe : Dyn
  actAne : Dyn

/-- The `props` dict (lines 526-573), in source insertion order. -/
def build_props (dIso weekday : String) (f : Fetched) : List (String × Dyn) :=
  [(("Date"), .str dIso),
   (("weekday"), .str weekday),
   (("Activities (#)"), f.actCount),
   (("Activity Distance (mi)"), f.actDistMi),
   (("Activity Duration (min)"), f.actDurMin),
   (("Activity Calories"), f.actCal),
   (("Activity Names"), f.actNames),
   (("Activity Types"), f.actTypes),
   (("primary_sport"), f.actPrimary),
   (("activity_types_unique"), f.actTypesUnique),
   (("Training Effect (list)"), f.actTe),
   (("Aerobic Effect (list)"), f.actAe),
   (("Anaerobic Effect (list)"), f.actAne),
   (("Steps"), f.steps),
   (("Step Goal"), f.stepGoal),
   (("Walk Distance (mi)"), f.walkMi),
   (("Sleep Total (h)"), optDyn f.sleep.total_h),
   (("Sleep Light (h)"), optDyn f.sleep.light_h),
   (("Sleep Deep (h)"), optDyn f.sleep.deep_h),
   (("Sleep REM (h)"), optDyn f.sleep.rem_h),
   (("Sleep Awake (h)"), optDyn f.sleep.awake_h),
   (("Resting HR"), f.sleep.resting_hr),
   (("Sleep Start (local)"), optDyn f.sleep.start_local),
   (("Sleep End (local)"), optDyn f.sleep.end_local),
   (("Sleep Overall (q)"), scoreField f.sleep.scores (·.overall)),
   (("Sleep Duration (q)"), scoreField f.sleep.scores (·.total_duration)),
   (("Sleep Stress (q)"), scoreField f.sleep.scores (·.stress)),
   (("Sleep Awake Count (q)"), scoreField f.sleep.scores (·.awake_count_fmt)),
   (("Sleep REM % (q)"), scoreField f.sleep.scores (·.rem_percentage_fmt)),
   (("Sleep Restlessness (q)"), scoreField f.sleep.scores (·.restlessness)),
   (("Sleep Light % (q)"), scoreField f.sleep.scores (·.light_percentage_fmt)),
   (("Sleep Deep % (q)"), scoreField f.sleep.scores (·.deep_percentage_fmt)),
   (("Stress Avg"), f.stressAvg),
   (("Stress Max"), f.stressMax),
   (("Body Battery Avg"), f.bbAvg),
   (("Body Battery Min"), f.bbMin),
   (("Intensity Minutes"), f.intenTotal),
   (("Intensity Moderate (min)"), f.intenMod),
   (("Intensity Vigorous (min)"), f.intenVig),
   (("HRV"), f.hrv),
   (("Weight (lb)"), f.weightLb)]

/-- The fields popped from `props` when their fetched value is `None`
(lines 575-578: Intensity Minutes / Moderate / Vigorous and HRV — the
comment reads "Only write these if present (to preserve historical
values)"). -/
def volatileKeys : List String :=
  ["Intensity Minutes", "Intensity Moderate (min)", "Intensity Vigorous (min)", "HRV"]

/-- The pop loop of lines 576-578: volatile keys whose value is `None` are
removed from the dict. -/
def popAbsentVolatile (props : List (String × Dyn)) : List (String × Dyn) :=
  props.filter (fun p => !(volatileKeys.contains p.1 && isNullB p.2))

/-- `row_values = [props.get(h, "") for h in SHEET_HEADERS]` (line 581):
a key missing from `props` becomes the empty string; a key present with
value `None` stays `None`. -/
def rowValuesOf (props : List (String × Dyn)) : List Dyn :=
  SHEET_HEADERS.map (fun h => (dictGet? props h).getD (.str ""))

/-- The full row `main` writes for one date in `garmin-sheets-daily.py`
(props built, absent volatile fields popped, then laid out per header). -/
def daily_row_values (dIso weekday : String) (f : Fetched) : List Dyn :=
  rowValuesOf (popAbsentVolatile (build_props dIso weekday f))

-- ---------------------------------------------------------------------------
-- Persistent store (Google Sheets worksheet) and the Upsert Reconciler
-- (`_read_date_index` lines 264-274, upsert lines 580-595)
-- ---------------------------------------------------------------------------

/-- A worksheet row: one cell value per column. -/
abbrev Row := List Dyn

/-- The worksheet: row 1 is the header row; data rows follow. -/
abbrev Store := List Row

/-- One cell of a range update (`ws.update` with `value_input_option="RAW"`):
per the Sheets API values contract, a `null` in the written values is
skipped (the cell keeps its old value) while any other value — including the
empty string — replaces the cell's content. -/
def writeCell (old new : Dyn) : Dyn :=
  match new with
  | .null => old
  | v => v

/-- One cell of an appended row: there is no old value, so `null` leaves the
fresh cell empty. -/
def appendCellv (new : Dyn) : Dyn :=
  match new with
  | .null => .str ""
  | v => v

/-- `ws.update(range A{row}:{col n}, [row_values])`: the written range covers
exactly the `row_values` columns; cells beyond it keep their values. -/
def writeRowVals : Row → List Dyn → Row
  | old, [] => old
  | [], v :: vs => writeCell (.str "") v :: writeRowVals [] vs
  | o :: os, v :: vs => writeCell o v :: writeRowVals os vs

/-- `ws.append_row(row_values)`: a fresh row from the written values. -/
def appendRowVals (vals : List Dyn) : Row :=
  vals.map appendCellv

/-- Overwrite the row at a 1-based position (position 1 is the header row);
an out-of-range position changes nothing. -/
def writeRowAt : Store → Nat → List Dyn → Store
  | [], _, _ => []
  | r :: rs, 0, _ => r :: rs
  | r :: rs, 1, vals => writeRowVals r vals :: rs
  | r :: rs, k + 2, vals => r :: writeRowAt rs (k + 1) vals

/-- The displayed string of a cell as `ws.col_values` returns it (column
cells are the ISO date strings the scripts write, an empty cell reads back
as `""`). -/
def dynCellStr : Dyn → String
  | .str s => s
  | .null => ""
  | .num q => if q.den == 1 then toString q.num else toString q
  | .list _ => ""
  | .dict _ => ""

/-- The first-column string of a row. -/
def colString (r : Row) : String := dynCellStr (r.headD .null)

/-- The loop of `_read_date_index` (lines 271-273): walk the first column
from row 2, keeping non-empty values; a later duplicate overwrites an
earlier one, which the accumulator models by prepending (lookup finds the
most recent insertion, as a Python dict does). -/
def buildIndex : Nat → Store → List (String × Nat) → List (String × Nat)
  | _, [], acc => acc
  | i, r :: rs, acc =>
    buildIndex (i + 1) rs (if colString r = "" then acc else (colString r, i) :: acc)

/-- `_read_date_index(ws)` (lines 264-274): `{Date -> row_number}` built from
the store's first column, skipping the header row. -/
def read_date_index (store : Store) : List (String × Nat) :=
  buildIndex 2 (store.drop 1) []

/-- Python dict lookup on the date index. -/
def idxLookup (idx : List (String × Nat)) (k : String) : Option Nat :=
  (idx.find? (fun p => p.1 == k)).map (·.2)

/-- The mutable per-run state of `main`'s upsert loop: the worksheet, the
date index (built once per run, extended on appends), and the
update/append counters. -/
structure RunState where
  store : Store
  index : List (String × Nat)
  updates : Nat
  appends : Nat

/-- The upsert of one date (lines 583-595): if the date key is in the index,
overwrite that row's full field range in one write and count an update;
otherwise append the row at the end, register the new row's position
(`len(ws.col_values(1))` — the store's row count, since the appended row has
a non-empty date in column 1) under the date key, and count an append. -/
def runStep (st : RunState) (dIso : String) (vals : List Dyn) : RunState :=
  match idxLookup st.index dIso with
  | some k =>
    { st with store := writeRowAt st.store k vals, updates := st.updates + 1 }
  | none =>
    let store' := st.store ++ [appendRowVals vals]
    { store := store', index := (dIso, store'.length) :: st.index,
      updates := st.updates, appends := st.appends + 1 }

/-- One date processed by a fresh run: the index is rebuilt from the store
(line 472) and the date upserted. -/
def upsertRun (store : Store) (dIso : String) (vals : List Dyn) : RunState :=
  runStep ⟨store, read_date_index store, 0, 0⟩ dIso vals

/-- `main`'s per-date loop (lines 483-597) with the store's write behaviour
abstracted by `failsOn`: a date whose write the store rejects raises out of
the loop — there is no try/except around `ws.update`/`ws.append_row` — so
the run stops with the state reached so far and the final summary line is
never printed. `rvOf` gives the (deterministic) row values fetched for a
date. -/
def mainLoop (failsOn : String → Bool) (rvOf : String → List Dyn) :
    List String → RunState → Except (String × RunState) RunState
  | [], st => .ok st
  | d :: ds, st =>
    if failsOn d then .error (d, st)
    else mainLoop failsOn rvOf ds (runStep st d (rvOf d))

/-- Cell at 1-based row `r`, 0-based column `c` (absent cells read empty). -/
def getCell (store : Store) (r c : Nat) : Dyn :=
  (store.getD (r - 1) []).getD c .null

-- ---------------------------------------------------------------------------
-- Named concrete inputs used in the statements about the runs below
-- ---------------------------------------------------------------------------

/-- The header row as written on worksheet creation. -/
def hdrRow : Row := SHEET_HEADERS.map Dyn.str

/-- A fetch result in which the provider delivered intensity minutes
(total 50 = 30 moderate + 2·10 vigorous) and HRV 45 for the date. -/
def exF1 : Fetched :=
  { steps := .num 9000, stepGoal := .num 10000, walkMi := .num (35 / 10)
    sleep := SleepFrag.empty
    stressAvg := .null, stressMax := .null, bbAvg := .null, bbMin := .null
    intenTotal := .num 50, intenMod := .num 30, intenVig := .num 10
    hrv := .num 45, weightLb := .null
    actCount := .num 0, actDistMi := .num 0, actDurMin := .num 0, actCal := .num 0
    actNames := .str "", actTypes := .str "", actPrimary := .str "", actTypesUnique := .str ""
    actTe := .str "", actAe := .str "", actAne := .str "" }

/-- The same fetch result on a later run in which the provider's intensity
and HRV lookups return absent for the date. -/
def exF2 : Fetched :=
  { exF1 with intenTotal := .null, intenMod := .null, intenVig := .null, hrv := .null }

/-- First run on an empty sheet: the date is appended with Intensity
Minutes 50. -/
def c1St1 : RunState :=
  upsertRun [hdrRow] ("2025-03-05") (daily_row_values ("2025-03-05") ("Wednesday") exF1)

/-- Second run, same date, intensity/HRV now absent. -/
def c1St2 : RunState :=
  upsertRun c1St1.store ("2025-03-05") (daily_row_values ("2025-03-05") ("Wednesday") exF2)

/-- Recursive characterization of first-occurrence key order (equal to
`keysInOrder`, proved below); used only in proofs. -/
def keysRec : List String → List String
  | [] => []
  | t :: rest => t :: keysRec (rest.filter (fun x => x != t))
termination_by l => l.length
decreasing_by
  simp only [List.length_cons]
  exact Nat.lt_succ_of_le (List.length_filter_le _ _)

end GarminSpec

-- ===========================================================================
-- Theorems
-- ===========================================================================

namespace GarminSpec

/-- C3 counterexample: with `windowDays = 5`, `includeToday = false` and
today = 2025-03-10, the planner does NOT yield the six dates
2025-03-04 .. 2025-03-09 named by the claim. -/
theorem c3_window_counterexample :
    windowDates ⟨2025, 3, 10⟩ false 5 ≠
      [⟨2025, 3, 4⟩, ⟨2025, 3, 5⟩, ⟨2025, 3, 6⟩, ⟨2025, 3, 7⟩, ⟨2025, 3, 8⟩,
       ⟨2025, 3, 9⟩] := by
  decide

/-- C3 (amended): with `windowDays = 5`, `includeToday = false` and
today = 2025-03-10, the planner yields exactly the five ascending dates
2025-03-05 .. 2025-03-09 — the count equals `windowDays` and the window ends
on 2025-03-09. -/
theorem c3_window_planner :
    windowDates ⟨2025, 3, 10⟩ false 5 =
      [⟨2025, 3, 5⟩, ⟨2025, 3, 6⟩, ⟨2025, 3, 7⟩, ⟨2025, 3, 8⟩, ⟨2025, 3, 9⟩] ∧
    (windowDates ⟨2025, 3, 10⟩ false 5).length = 5 ∧
    (windowDates ⟨2025, 3, 10⟩ false 5).getLast? = some ⟨2025, 3, 9⟩ := by
  refine ⟨by decide, by decide, by decide⟩

/-- C10: the per-day intensity total is `(moderate or 0) + 2*(vigorous or 0)`
whenever at least one of the two is present, and absent when both are
absent. -/
theorem c10_intensity_total (mod vig : Option ℚ) :
    ((mod.isSome ∨ vig.isSome) →
      (intensity_entry mod vig).total = some (mod.getD 0 + 2 * vig.getD 0)) ∧
    (mod = none → vig = none → (intensity_entry mod vig).total = none) := by
  cases mod <;> cases vig <;> simp [intensity_entry]

/-- C10 witness: concrete instances of both branches. -/
theorem c10_intensity_total_witness :
    (intensity_entry (some 10) none).total =
      some ((some (10 : ℚ)).getD 0 + 2 * (none : Option ℚ).getD 0) ∧
    (intensity_entry none none).total = none :=
  ⟨(c10_intensity_total (some 10) none).1 (Or.inl rfl),
   (c10_intensity_total none none).2 rfl rfl⟩

/-- C1: the volatile-field pop of `garmin-sheets-daily.py` does not preserve
stored history. After a first run stores Intensity Minutes 50 for
2025-03-05, a second run whose intensity fetch returns absent pops the key
from `props`, but `row_values` then fills the column with `""` and the full
row range is overwritten — the stored cell becomes `""`, not 50. -/
theorem c1_volatile_field_cleared :
    getCell c1St1.store 2 36 = .num 50 ∧
    c1St2.updates = 1 ∧
    getCell c1St2.store 2 36 = .str "" ∧
    getCell c1St2.store 2 39 = .str "" ∧
    Dyn.str "" ≠ Dyn.num 50 :=
  ⟨rfl, rfl, rfl, rfl, fun h => Dyn.noConfusion h⟩

/-- C5: branch selection and registration of the upsert (lines 583-595).
If the date key is in the index the row at the indexed position is
overwritten in one full-range write and an update is counted, the index
untouched; otherwise the row is appended at the store's end, its position
(the new store length) is registered under the date key at once, an append
is counted — and a later record with the same key in the same run therefore
takes the update branch against the registered row instead of appending
again. -/
theorem c5_upsert_branch (st : RunState) (d : String) (vals vals2 : List Dyn) :
    (∀ k, idxLookup st.index d = some k →
      runStep st d vals =
        { st with store := writeRowAt st.store k vals, updates := st.updates + 1 }) ∧
    (idxLookup st.index d = none →
      runStep st d vals =
        { store := st.store ++ [appendRowVals vals],
          index := (d, st.store.length + 1) :: st.index,
          updates := st.updates, appends := st.appends + 1 } ∧
      idxLookup (runStep st d vals).index d = some (st.store.length + 1) ∧
      runStep (runStep st d vals) d vals2 =
        { store := writeRowAt (st.store ++ [appendRowVals vals]) (st.store.length + 1) vals2,
          index := (d, st.store.length + 1) :: st.index,
          updates := st.updates + 1, appends := st.appends + 1 }) := by
  constructor
  · intro k hk
    simp [runStep, hk]
  · intro hn
    have h1 : runStep st d vals =
        { store := st.store ++ [appendRowVals vals],
          index := (d, st.store.length + 1) :: st.index,
          updates := st.updates, appends := st.appends + 1 } := by
      simp [runStep, hn]
    have h2 : idxLookup ((d, st.store.length + 1) :: st.index) d =
        some (st.store.length + 1) := by
      simp [idxLookup, List.find?]
    refine ⟨h1, by rw [h1]; exact h2, ?_⟩
    rw [h1]
    simp [runStep, h2]

/-- C5 witness: the spec's concrete example — index `{2025-03-05 ↦ 7}`, a
record for 2025-03-06 appends and registers, then a record for 2025-03-05
updates row 7. -/
theorem c5_upsert_branch_witness :
    runStep ⟨[hdrRow], [(("2025-03-05"), 7)], 0, 0⟩ ("2025-03-06")
        [.str ("2025-03-06")] =
      { store := [hdrRow] ++ [appendRowVals [.str ("2025-03-06")]],
        index := (("2025-03-06"), 2) :: [(("2025-03-05"), 7)],
        updates := 0, appends := 1 } ∧
    runStep { store := [hdrRow] ++ [appendRowVals [.str ("2025-03-06")]],
              index := (("2025-03-06"), 2) :: [(("2025-03-05"), 7)],
              updates := 0, appends := 1 } ("2025-03-05") [.str ("2025-03-05")] =
      { store := writeRowAt ([hdrRow] ++ [appendRowVals [.str ("2025-03-06")]]) 7
                   [.str ("2025-03-05")],
        index := (("2025-03-06"), 2) :: [(("2025-03-05"), 7)],
        updates := 1, appends := 1 } :=
  ⟨((c5_upsert_branch ⟨[hdrRow], [(("2025-03-05"), 7)], 0, 0⟩ ("2025-03-06")
      [.str ("2025-03-06")] [.str ("2025-03-06")]).2 rfl).1,
   (c5_upsert_branch { store := [hdrRow] ++ [appendRowVals [.str ("2025-03-06")]],
                       index := (("2025-03-06"), 2) :: [(("2025-03-05"), 7)],
                       updates := 0, appends := 1 } ("2025-03-05")
      [.str ("2025-03-05")] [.str ("2025-03-05")]).1 7 rfl⟩

end GarminSpec

namespace GarminSpec

/-- C2 counterexample: a run over [2025-03-05, 2025-03-06] in which the store
rejects the write for 2025-03-05 aborts at once — the loop has no per-date
exception handling — so 2025-03-06 is never processed and no summary state
is produced. -/
theorem c2_write_failure_counterexample :
    mainLoop (fun d => d == ("2025-03-05")) (fun d => [Dyn.str d])
        [("2025-03-05"), ("2025-03-06")] ⟨[hdrRow], [], 0, 0⟩ =
      .error (("2025-03-05"), ⟨[hdrRow], [], 0, 0⟩) ∧
    ¬ ∃ st, mainLoop (fun d => d == ("2025-03-05")) (fun d => [Dyn.str d])
        [("2025-03-05"), ("2025-03-06")] ⟨[hdrRow], [], 0, 0⟩ = .ok st := by
  refine ⟨rfl, ?_⟩
  rintro ⟨st, h⟩
  have h2 : (Except.error (("2025-03-05"), (⟨[hdrRow], [], 0, 0⟩ : RunState)) :
      Except (String × RunState) RunState) = .ok st :=
    (rfl : mainLoop (fun d => d == ("2025-03-05")) (fun d => [Dyn.str d])
        [("2025-03-05"), ("2025-03-06")] ⟨[hdrRow], [], 0, 0⟩ =
      .error (("2025-03-05"), ⟨[hdrRow], [], 0, 0⟩)).symm.trans h
  exact Except.noConfusion h2

/-- C2 (amended): a store write failure for a date is NOT isolated: the
dates before it are processed normally, but the failing date's exception
propagates out of the loop — the failing date and every subsequent date are
left unprocessed and the final summary is never reached. -/
theorem c2_write_failure_aborts (failsOn : String → Bool)
    (rvOf : String → List Dyn) (pre post : List String) (dIso : String)
    (st : RunState) (hpre : ∀ p ∈ pre, failsOn p = false)
    (hd : failsOn dIso = true) :
    mainLoop failsOn rvOf (pre ++ dIso :: post) st =
      .error (dIso, pre.foldl (fun s p => runStep s p (rvOf p)) st) := by
  induction pre generalizing st with
  | nil => simp [mainLoop, hd]
  | cons p ps ih =>
    have hp : failsOn p = false := hpre p (List.mem_cons_self p ps)
    simp only [List.cons_append, mainLoop, hp, List.foldl_cons, Bool.false_eq_true,
      if_false]
    exact ih _ (fun q hq => hpre q (List.mem_cons_of_mem p hq))

/-- C2 witness: concrete instantiation — 2025-03-04 succeeds, the write for
2025-03-05 is rejected, the run ends in the error with only 2025-03-04
processed. -/
theorem c2_write_failure_aborts_witness :
    mainLoop (fun d => d == ("2025-03-05")) (fun d => [Dyn.str d])
        ([("2025-03-04")] ++ ("2025-03-05") :: [("2025-03-06")])
        ⟨[hdrRow], [], 0, 0⟩ =
      .error (("2025-03-05"),
        [("2025-03-04")].foldl (fun s p => runStep s p [Dyn.str p])
          ⟨[hdrRow], [], 0, 0⟩) :=
  c2_write_failure_aborts (fun d => d == ("2025-03-05")) (fun d => [Dyn.str d])
    [("2025-03-04")] [("2025-03-06")] ("2025-03-05") ⟨[hdrRow], [], 0, 0⟩
    (by decide) rfl

end GarminSpec

namespace GarminSpec

/-- C9: the steps and sleep adapters never let an exception escape. A
provider that raises yields the all-absent result; a payload whose
interpretation raises anywhere inside the `try` body also yields the
all-absent result; two concrete malformed payloads are evaluated. -/
theorem c9_adapters_never_raise :
    (∀ e, fetch_steps_for_date (.error e) = (.null, .null, .null)) ∧
    (∀ e, fetch_sleep_for_date (.error e) = SleepFrag.empty) ∧
    (∀ d e, fetch_steps_body d = .error e →
      fetch_steps_for_date (.ok d) = (.null, .null, .null)) ∧
    (∀ d e, fetch_sleep_body d = .error e →
      fetch_sleep_for_date (.ok d) = SleepFrag.empty) ∧
    fetch_steps_for_date (.ok (.list [.str ("x")])) = (.null, .null, .null) ∧
    fetch_sleep_for_date (.ok (.str ("x"))) = SleepFrag.empty := by
  refine ⟨fun e => rfl, fun e => rfl, ?_, ?_, rfl, rfl⟩
  · intro d e h
    simp [fetch_steps_for_date, Except.bind, h]
  · intro d e h
    simp [fetch_sleep_for_date, Except.bind, h]

/-- C9 witness: the implication branches applied at concrete malformed
payloads whose bodies raise (`AttributeError` on `.get` of a non-dict). -/
theorem c9_adapters_never_raise_witness :
    fetch_steps_for_date (.ok (.list [.num 5])) = (.null, .null, .null) ∧
    fetch_sleep_for_date (.ok (.list [.num 5])) = SleepFrag.empty :=
  ⟨c9_adapters_never_raise.2.2.1 (.list [.num 5]) .attrErr rfl,
   c9_adapters_never_raise.2.2.2.1 (.list [.num 5]) .attrErr rfl⟩

end GarminSpec

namespace GarminSpec

theorem pyOr_null (b : Dyn) : pyOr .null b = b := rfl

theorem pyOr_dict_cons (p : String × Dyn) (ps : List (String × Dyn)) (b : Dyn) :
    pyOr (.dict (p :: ps)) b = .dict (p :: ps) := rfl

/-- `daily.get(k) or 0` used in arithmetic yields the value, or `0` when the
field is absent (Python `None`). -/
theorem toNum_pyOr_optDyn (v : Option ℚ) :
    toNum (pyOr (optDyn v) (.num 0)) = .ok (v.getD 0) := by
  cases v with
  | none => rfl
  | some q =>
    by_cases hq : q = 0
    · subst hq; simp [optDyn, pyOr, truthy, toNum]
    · simp [optDyn, pyOr, truthy, toNum, bne_iff_ne, hq]

/-- Full evaluation of the sleep adapter on a payload carrying the four
stage-second fields. -/
theorem fetch_sleep_mk (d l r a : Option ℚ) :
    fetch_sleep_for_date (.ok (mkSleepPayload d l r a)) =
      { total_h := some (pyRound2 ((d.getD 0 + l.getD 0 + r.getD 0) / 3600))
        light_h := some (pyRound2 (l.getD 0 / 3600))
        deep_h := some (pyRound2 (d.getD 0 / 3600))
        rem_h := some (pyRound2 (r.getD 0 / 3600))
        awake_h := some (pyRound2 (a.getD 0 / 3600))
        resting_hr := .null
        start_local := none
        end_local := none
        scores := some ⟨.null, .null, .null, .null, .str "None", .str "None",
                        .str "None", .str "None"⟩ } := by
  simp [fetch_sleep_for_date, fetch_sleep_body, mkSleepPayload, getOr0, pyGet, pyGetD,
    dictGet?, sleep_scores_from, qualOf, format_score_value, ms_to_local_iso, isNullB,
    toNum_pyOr_optDyn, pyOr_null, pyOr_dict_cons, Except.bind, bind, pure, Except.pure,
    List.find?]

/-- C7: the reported total sleep hours are the deep+light+REM seconds (each
`0` when absent) divided by 3600 and rounded to 2 decimals; awake seconds
are reported in their own field and never contribute — changing the awake
component does not change the total. -/
theorem c7_sleep_total_excludes_awake (d l r a : Option ℚ) :
    (fetch_sleep_for_date (.ok (mkSleepPayload d l r a))).total_h =
      some (pyRound2 ((d.getD 0 + l.getD 0 + r.getD 0) / 3600)) ∧
    (fetch_sleep_for_date (.ok (mkSleepPayload d l r a))).awake_h =
      some (pyRound2 (a.getD 0 / 3600)) ∧
    ∀ a', (fetch_sleep_for_date (.ok (mkSleepPayload d l r a))).total_h =
      (fetch_sleep_for_date (.ok (mkSleepPayload d l r a'))).total_h := by
  refine ⟨?_, ?_, fun a' => ?_⟩ <;> simp [fetch_sleep_mk]

end GarminSpec

namespace GarminSpec

/-- `lexLe` is total. -/
theorem lexLe_total : ∀ a b : List Char, lexLe a b = true ∨ lexLe b a = true := by
  intro a
  induction a with
  | nil => intro b; exact Or.inl rfl
  | cons x xs ih =>
    intro b
    cases b with
    | nil => exact Or.inr rfl
    | cons y ys =>
      simp only [lexLe]
      rcases Nat.lt_trichotomy x.toNat y.toNat with h | h | h
      · left; simp [h]
      · simp [h, Nat.lt_irrefl]
        exact ih ys
      · right; simp [h, Nat.lt_asymm h]

/-- `lexLe` is transitive. -/
theorem lexLe_trans : ∀ a b c : List Char,
    lexLe a b = true → lexLe b c = true → lexLe a c = true := by
  intro a
  induction a with
  | nil => intro b c _ _; rfl
  | cons x xs ih =>
    intro b c hab hbc
    cases b with
    | nil => simp [lexLe] at hab
    | cons y ys =>
      cases c with
      | nil => simp [lexLe] at hbc
      | cons z zs =>
        simp only [lexLe] at hab hbc ⊢
        rcases Nat.lt_trichotomy x.toNat y.toNat with h1 | h1 | h1 <;>
          rcases Nat.lt_trichotomy y.toNat z.toNat with h2 | h2 | h2
        · simp [Nat.lt_trans h1 h2]
        · simp [h2 ▸ h1]
        · simp [h2, Nat.lt_asymm h2] at hbc
        · simp [h1 ▸ h2]
        · have hxz : x.toNat = z.toNat := h1.trans h2
          simp [h1, Nat.lt_irrefl] at hab
          simp [h2, Nat.lt_irrefl] at hbc
          simp [hxz, Nat.lt_irrefl]
          exact ih ys zs hab hbc
        · simp [h2, Nat.lt_asymm h2] at hbc
        · simp [h1, Nat.lt_asymm h1] at hab
        · simp [h1, Nat.lt_asymm h1] at hab
        · simp [h1, Nat.lt_asymm h1] at hab

instance : IsTotal String strLeR :=
  ⟨fun a b => lexLe_total a.data b.data⟩

instance : IsTrans String strLeR :=
  ⟨fun a b c hab hbc => lexLe_trans a.data b.data c.data hab hbc⟩

/-- Membership in the accumulated first-occurrence key fold. -/
theorem mem_keys_foldl (ts : List String) :
    ∀ (acc : List String) (a : String),
      a ∈ ts.foldl (fun acc t => if t ∈ acc then acc else acc ++ [t]) acc ↔
        a ∈ acc ∨ a ∈ ts := by
  induction ts with
  | nil => simp
  | cons t rest ih =>
    intro acc a
    simp only [List.foldl_cons]
    rw [ih]
    by_cases h : t ∈ acc
    · simp only [if_pos h, List.mem_cons]
      constructor
      · tauto
      · rintro (ha | rfl | ha)
        · exact Or.inl ha
        · exact Or.inl h
        · exact Or.inr ha
    · simp only [if_neg h, List.mem_append, List.mem_singleton, List.mem_cons]
      tauto

/-- The first-occurrence key fold preserves `Nodup`. -/
theorem nodup_keys_foldl (ts : List String) :
    ∀ acc : List String, acc.Nodup →
      (ts.foldl (fun acc t => if t ∈ acc then acc else acc ++ [t]) acc).Nodup := by
  induction ts with
  | nil => intro acc h; simpa using h
  | cons t rest ih =>
    intro acc h
    simp only [List.foldl_cons]
    by_cases ht : t ∈ acc
    · simpa [ht] using ih acc h
    · refine ih _ ?_
      simp only [if_neg ht]
      rw [List.nodup_append]
      exact ⟨h, List.nodup_singleton t, by simpa using ht⟩

/-- Membership in `keysInOrder`. -/
theorem mem_keysInOrder (ts : List String) (a : String) :
    a ∈ keysInOrder ts ↔ a ∈ ts := by
  unfold keysInOrder
  rw [mem_keys_foldl]
  simp

/-- `keysInOrder` has no duplicates. -/
theorem nodup_keysInOrder (ts : List String) : (keysInOrder ts).Nodup :=
  nodup_keys_foldl ts [] List.nodup_nil

/-- C8: the unique-type output — the set of distinct type tags of the group,
sorted ascending by code points, joined with single spaces; in particular
`["bike","run","bike"]` yields `"bike run"`. -/
theorem c8_unique_type_ordering (ts : List String) :
    unique_types_str ["bike", "run", "bike"] = "bike run" ∧
    (∀ t, t ∈ sortedUniqueTypes ts ↔ t ∈ ts) ∧
    (sortedUniqueTypes ts).Nodup ∧
    (sortedUniqueTypes ts).Sorted strLeR ∧
    unique_types_str ts = joinSp (sortedUniqueTypes ts) := by
  refine ⟨by decide, ?_, ?_, ?_, rfl⟩
  · intro t
    unfold sortedUniqueTypes
    rw [(List.perm_insertionSort strLeR (keysInOrder ts)).mem_iff]
    exact mem_keysInOrder ts t
  · exact ((List.perm_insertionSort strLeR (keysInOrder ts)).nodup_iff).mpr
      (nodup_keysInOrder ts)
  · exact List.sorted_insertionSort strLeR (keysInOrder ts)

end GarminSpec

namespace GarminSpec

theorem keys_foldl_eq_keysRec (ts : List String) : ∀ acc,
    ts.foldl (fun acc t => if t ∈ acc then acc else acc ++ [t]) acc =
      acc ++ keysRec (ts.filter (fun x => decide (x ∉ acc))) := by
  induction ts with
  | nil => intro acc; simp [keysRec]
  | cons t rest ih =>
    intro acc
    simp only [List.foldl_cons, List.filter_cons]
    by_cases ht : t ∈ acc
    · rw [if_pos ht, ih acc]
      simp [ht]
    · rw [if_neg ht, ih (acc ++ [t])]
      have hfil : rest.filter (fun x => decide (x ∉ acc ++ [t])) =
          (rest.filter (fun x => decide (x ∉ acc))).filter (fun x => x != t) := by
        rw [List.filter_filter]
        apply List.filter_congr
        intro x _
        rw [Bool.eq_iff_iff]
        simp [List.mem_append, bne_iff_ne, not_or, and_comm]
      rw [hfil]
      have hstep : (if decide (t ∉ acc) = true
            then t :: rest.filter (fun x => decide (x ∉ acc))
            else rest.filter (fun x => decide (x ∉ acc))) =
          t :: rest.filter (fun x => decide (x ∉ acc)) := by simp [ht]
      rw [hstep]
      have hrec : keysRec (t :: rest.filter (fun x => decide (x ∉ acc))) =
          t :: keysRec ((rest.filter (fun x => decide (x ∉ acc))).filter
            (fun x => x != t)) := by
        simp [keysRec]
      rw [hrec]
      simp

theorem keysInOrder_eq_keysRec (ts : List String) :
    keysInOrder ts = keysRec ts := by
  unfold keysInOrder
  rw [keys_foldl_eq_keysRec ts []]
  simp

theorem indexOf_filter_lt (l : List String) :
    ∀ (p : String → Bool) (a b : String),
      a ∈ l.filter p → b ∈ l.filter p →
      (l.filter p).indexOf a < (l.filter p).indexOf b →
      l.indexOf a < l.indexOf b := by
  induction l with
  | nil => simp
  | cons c cs ih =>
    intro p a b ha hb hlt
    by_cases hpc : p c
    · rw [List.filter_cons_of_pos hpc] at ha hb hlt
      by_cases hbc : b = c
      · subst hbc
        rw [List.indexOf_cons_self] at hlt
        exact absurd hlt (Nat.not_lt_zero _)
      · by_cases hac : a = c
        · subst hac
          rw [List.indexOf_cons_self]
          rw [List.indexOf_cons_ne cs (fun h => hbc h.symm)]
          exact Nat.succ_pos _
        · rw [List.indexOf_cons_ne _ (fun h => hac h.symm),
            List.indexOf_cons_ne _ (fun h => hbc h.symm)] at hlt
          rw [List.indexOf_cons_ne cs (fun h => hac h.symm),
            List.indexOf_cons_ne cs (fun h => hbc h.symm)]
          have ha' : a ∈ cs.filter p := by
            rcases List.mem_cons.mp ha with h | h
            · exact absurd h hac
            · exact h
          have hb' : b ∈ cs.filter p := by
            rcases List.mem_cons.mp hb with h | h
            · exact absurd h hbc
            · exact h
          exact Nat.succ_lt_succ (ih p a b ha' hb' (Nat.lt_of_succ_lt_succ hlt))
    · rw [List.filter_cons_of_neg hpc] at ha hb hlt
      have hac : a ≠ c := by
        intro h; subst h
        exact hpc (List.of_mem_filter ha)
      have hbc : b ≠ c := by
        intro h; subst h
        exact hpc (List.of_mem_filter hb)
      rw [List.indexOf_cons_ne cs (fun h => hac h.symm),
        List.indexOf_cons_ne cs (fun h => hbc h.symm)]
      exact Nat.succ_lt_succ (ih p a b ha hb hlt)

theorem mem_keysRec (l : List String) (a : String) : a ∈ keysRec l ↔ a ∈ l := by
  rw [← keysInOrder_eq_keysRec]
  exact mem_keysInOrder l a

theorem keysRec_pairwise_indexOf (ts : List String) :
    (keysRec ts).Pairwise (fun a b => ts.indexOf a < ts.indexOf b) := by
  induction ts using keysRec.induct with
  | case1 => simp [keysRec]
  | case2 t rest ih =>
    rw [show keysRec (t :: rest) =
        t :: keysRec (rest.filter (fun x => x != t)) from by simp [keysRec]]
    rw [List.pairwise_cons]
    constructor
    · intro b hb
      have hbmem : b ∈ rest.filter (fun x => x != t) := (mem_keysRec _ b).mp hb
      have hbt : b ≠ t := by
        have := List.of_mem_filter hbmem
        simpa [bne_iff_ne] using this
      rw [List.indexOf_cons_self, List.indexOf_cons_ne rest (fun h => hbt h.symm)]
      exact Nat.succ_pos _
    · refine List.Pairwise.imp_of_mem ?_ ih
      intro a b ha hb hlt
      have ha' : a ∈ rest.filter (fun x => x != t) := (mem_keysRec _ a).mp ha
      have hb' : b ∈ rest.filter (fun x => x != t) := (mem_keysRec _ b).mp hb
      have hat : a ≠ t := by
        have := List.of_mem_filter ha'
        simpa [bne_iff_ne] using this
      have hbt : b ≠ t := by
        have := List.of_mem_filter hb'
        simpa [bne_iff_ne] using this
      rw [List.indexOf_cons_ne rest (fun h => hat h.symm),
        List.indexOf_cons_ne rest (fun h => hbt h.symm)]
      exact Nat.succ_lt_succ
        (indexOf_filter_lt rest (fun x => x != t) a b ha' hb' hlt)

theorem fold_best (ts : List String) :
    ∀ (ks : List String) (k : String),
      ((k :: ks).Pairwise fun a b => ts.indexOf a < ts.indexOf b) →
      (ks.foldl (fun best k2 =>
          if countOf ts best < countOf ts k2 then k2 else best) k) ∈ k :: ks ∧
      (∀ x ∈ k :: ks, countOf ts x ≤
        countOf ts (ks.foldl (fun best k2 =>
          if countOf ts best < countOf ts k2 then k2 else best) k)) ∧
      (∀ x ∈ k :: ks, countOf ts x =
          countOf ts (ks.foldl (fun best k2 =>
            if countOf ts best < countOf ts k2 then k2 else best) k) →
        ts.indexOf (ks.foldl (fun best k2 =>
          if countOf ts best < countOf ts k2 then k2 else best) k) ≤
          ts.indexOf x) := by
  intro ks
  induction ks with
  | nil =>
    intro k _
    simp
  | cons k2 rest ih =>
    intro k hpw
    obtain ⟨hk_all, hpw2⟩ := List.pairwise_cons.mp hpw
    obtain ⟨hk2_all, hrest⟩ := List.pairwise_cons.mp hpw2
    simp only [List.foldl_cons]
    by_cases hc : countOf ts k < countOf ts k2
    · rw [if_pos hc]
      have hfold := ih k2 hpw2
      refine ⟨List.mem_cons_of_mem k hfold.1, ?_, ?_⟩
      · intro x hx
        rcases List.mem_cons.mp hx with hxe | hx2
        · subst hxe
          exact Nat.le_trans (Nat.le_of_lt hc)
            (hfold.2.1 k2 (List.mem_cons_self k2 rest))
        · exact hfold.2.1 x hx2
      · intro x hx heq
        rcases List.mem_cons.mp hx with hxe | hx2
        · exfalso
          subst hxe
          have := hfold.2.1 k2 (List.mem_cons_self k2 rest)
          omega
        · exact hfold.2.2 x hx2 heq
    · rw [if_neg hc]
      have hpw' : (k :: rest).Pairwise fun a b => ts.indexOf a < ts.indexOf b :=
        List.pairwise_cons.mpr
          ⟨fun x hx => hk_all x (List.mem_cons_of_mem k2 hx), hrest⟩
      have hfold := ih k hpw'
      refine ⟨?_, ?_, ?_⟩
      · rcases List.mem_cons.mp hfold.1 with h | h
        · rw [h]; exact List.mem_cons_self k (k2 :: rest)
        · exact List.mem_cons_of_mem k (List.mem_cons_of_mem k2 h)
      · intro x hx
        rcases List.mem_cons.mp hx with hxe | hx2
        · subst hxe
          exact hfold.2.1 x (List.mem_cons_self x rest)
        · rcases List.mem_cons.mp hx2 with hxe2 | hx3
          · subst hxe2
            exact Nat.le_trans (Nat.le_of_not_lt hc)
              (hfold.2.1 k (List.mem_cons_self k rest))
          · exact hfold.2.1 x (List.mem_cons_of_mem k hx3)
      · intro x hx heq
        rcases List.mem_cons.mp hx with hxe | hx2
        · subst hxe
          exact hfold.2.2 x (List.mem_cons_self x rest) heq
        · rcases List.mem_cons.mp hx2 with hxe2 | hx3
          · subst hxe2
            have hxk : countOf ts x ≤ countOf ts k := Nat.le_of_not_lt hc
            have hkb : countOf ts k ≤ countOf ts (rest.foldl (fun best k2 =>
                if countOf ts best < countOf ts k2 then k2 else best) k) :=
              hfold.2.1 k (List.mem_cons_self k rest)
            have hkeq : countOf ts k = countOf ts (rest.foldl (fun best k2 =>
                if countOf ts best < countOf ts k2 then k2 else best) k) := by
              omega
            have hbk := hfold.2.2 k (List.mem_cons_self k rest) hkeq
            exact Nat.le_trans hbk
              (Nat.le_of_lt (hk_all x (List.mem_cons_self x rest)))
          · exact hfold.2.2 x (List.mem_cons_of_mem k hx3) heq

end GarminSpec

namespace GarminSpec

/-- C6: for a non-empty group, the primary type has maximal frequency among
the group's tags, ties go to the tag whose first appearance in the group's
order is earliest, and the two spec examples evaluate as claimed. -/
theorem c6_primary_type_determinism (ts : List String) (h : ts ≠ []) :
    primary_type ts ∈ ts ∧
    (∀ t ∈ ts, countOf ts t ≤ countOf ts (primary_type ts)) ∧
    (∀ t ∈ ts, countOf ts t = countOf ts (primary_type ts) →
      ts.indexOf (primary_type ts) ≤ ts.indexOf t) ∧
    primary_type ["run", "bike", "run"] = "run" ∧
    primary_type ["run", "bike"] = "run" := by
  have hkeys_ne : keysInOrder ts ≠ [] := by
    obtain ⟨t, ht⟩ := List.exists_mem_of_ne_nil ts h
    intro hk
    have := (mem_keysInOrder ts t).mpr ht
    simp [hk] at this
  obtain ⟨k, ks, hk⟩ := List.exists_cons_of_ne_nil hkeys_ne
  have hpw : (k :: ks).Pairwise (fun a b => ts.indexOf a < ts.indexOf b) := by
    rw [← hk, keysInOrder_eq_keysRec]
    exact keysRec_pairwise_indexOf ts
  have hfold := fold_best ts ks k hpw
  have hprim : primary_type ts = ks.foldl (fun best k2 =>
      if countOf ts best < countOf ts k2 then k2 else best) k := by
    unfold primary_type
    rw [hk]
  refine ⟨?_, ?_, ?_, by decide, by decide⟩
  · rw [hprim]
    have := hfold.1
    rw [← hk] at this
    exact (mem_keysInOrder ts _).mp this
  · intro t ht
    rw [hprim]
    exact hfold.2.1 t (by rw [← hk]; exact (mem_keysInOrder ts t).mpr ht)
  · intro t ht heq
    rw [hprim]
    rw [hprim] at heq
    exact hfold.2.2 t (by rw [← hk]; exact (mem_keysInOrder ts t).mpr ht) heq

/-- C6 witness: the theorem applied at the two concrete groups. -/
theorem c6_primary_type_determinism_witness :
    primary_type ["run", "bike", "run"] = "run" ∧
    primary_type ["run", "bike"] = "run" :=
  ⟨(c6_primary_type_determinism ["run", "bike", "run"] (by decide)).2.2.2.1,
   (c6_primary_type_determinism ["run", "bike"] (by decide)).2.2.2.2⟩

end GarminSpec

namespace GarminSpec

theorem writeCell_write (o v : Dyn) : writeCell (writeCell o v) v = writeCell o v := by
  cases v <;> rfl

theorem writeCell_append (v : Dyn) : writeCell (appendCellv v) v = appendCellv v := by
  cases v <;> rfl

/-- Rewriting a row with the same values a second time changes nothing. -/
theorem writeRowVals_idem (vals : List Dyn) : ∀ old : Row,
    writeRowVals (writeRowVals old vals) vals = writeRowVals old vals := by
  induction vals with
  | nil => intro old; cases old <;> rfl
  | cons v vs ih =>
    intro old
    cases old with
    | nil =>
      simp only [writeRowVals]
      rw [writeCell_write, ih]
    | cons o os =>
      simp only [writeRowVals]
      rw [writeCell_write, ih]

/-- Rewriting a freshly appended row with the values it was appended from
changes nothing. -/
theorem writeRowVals_append_idem : ∀ vals : List Dyn,
    writeRowVals (appendRowVals vals) vals = appendRowVals vals := by
  intro vals
  induction vals with
  | nil => rfl
  | cons v vs ih =>
    simp only [appendRowVals, List.map_cons] at ih ⊢
    simp only [writeRowVals]
    rw [writeCell_append, ih]

theorem colString_writeRowVals (r : Row) (vals : List Dyn) (d : String)
    (h : vals.head? = some (.str d)) : colString (writeRowVals r vals) = d := by
  cases vals with
  | nil => simp at h
  | cons v vs =>
    have hv : v = .str d := by simpa using h
    subst hv
    cases r with
    | nil => rfl
    | cons o os => rfl

theorem colString_appendRowVals (vals : List Dyn) (d : String)
    (h : vals.head? = some (.str d)) : colString (appendRowVals vals) = d := by
  cases vals with
  | nil => simp at h
  | cons v vs =>
    have hv : v = .str d := by simpa using h
    subst hv
    rfl

theorem writeRowAt_getElem (store : Store) : ∀ (k : Nat) (vals : List Dyn),
    (writeRowAt store (k + 1) vals)[k]? = (store[k]?).map (writeRowVals · vals) := by
  induction store with
  | nil => intro k vals; simp [writeRowAt]
  | cons r rs ih =>
    intro k vals
    cases k with
    | zero => simp [writeRowAt]
    | succ k2 =>
      simp only [writeRowAt]
      rw [List.getElem?_cons_succ, List.getElem?_cons_succ]
      exact ih k2 vals

theorem map_colString_writeRowAt (store : Store) :
    ∀ (k : Nat) (vals : List Dyn) (d : String),
      vals.head? = some (.str d) →
      (∀ r, store[k]? = some r → colString r = d) →
      (writeRowAt store (k + 1) vals).map colString = store.map colString := by
  induction store with
  | nil => intro k vals d _ _; rfl
  | cons r rs ih =>
    intro k vals d hv hrow
    cases k with
    | zero =>
      simp only [writeRowAt, List.map_cons]
      rw [colString_writeRowVals r vals d hv, hrow r (by simp)]
    | succ k2 =>
      simp only [writeRowAt, List.map_cons]
      rw [ih k2 vals d hv (fun r' h => hrow r' (by simpa using h))]

theorem writeRowAt_fix (store : Store) : ∀ (k : Nat) (vals : List Dyn),
    (∀ r, store[k]? = some r → writeRowVals r vals = r) →
    writeRowAt store (k + 1) vals = store := by
  induction store with
  | nil => intro k vals _; rfl
  | cons r rs ih =>
    intro k vals h
    cases k with
    | zero =>
      simp only [writeRowAt]
      rw [h r (by simp)]
    | succ k2 =>
      simp only [writeRowAt]
      rw [ih k2 vals (fun r' h' => h r' (by simpa using h'))]

theorem buildIndex_append_ne (r : Row) (h : colString r ≠ "") :
    ∀ (rs : List Row) (i : Nat) (acc : List (String × Nat)),
      buildIndex i (rs ++ [r]) acc =
        (colString r, i + rs.length) :: buildIndex i rs acc := by
  intro rs
  induction rs with
  | nil =>
    intro i acc
    simp [buildIndex, h]
  | cons s ss ih =>
    intro i acc
    simp only [List.cons_append, buildIndex, List.append_eq]
    rw [ih (i + 1)]
    have heq : i + 1 + ss.length = i + (s :: ss).length := by
      simp [List.length_cons]
      omega
    rw [heq]

theorem read_date_index_append (store : Store) (newRow : Row) (d : String)
    (hne : store ≠ []) (hd : colString newRow = d) (hd0 : d ≠ "") :
    idxLookup (read_date_index (store ++ [newRow])) d = some (store.length + 1) := by
  obtain ⟨s, ss, rfl⟩ := List.exists_cons_of_ne_nil hne
  unfold read_date_index
  have hdrop : ((s :: ss) ++ [newRow]).drop 1 = ss ++ [newRow] := rfl
  rw [hdrop]
  rw [buildIndex_append_ne newRow (hd ▸ hd0) ss 2 []]
  rw [hd]
  simp [idxLookup, List.find?, List.length_cons]
  omega

theorem buildIndex_mem : ∀ (rs : List Row) (i : Nat) (acc : List (String × Nat))
    (p : String × Nat), p ∈ buildIndex i rs acc →
    p ∈ acc ∨ ∃ j r, rs[j]? = some r ∧ colString r = p.1 ∧ p.2 = i + j := by
  intro rs
  induction rs with
  | nil =>
    intro i acc p hp
    simp only [buildIndex] at hp
    exact Or.inl hp
  | cons r0 rest ih =>
    intro i acc p hp
    simp only [buildIndex] at hp
    rcases ih (i + 1) _ p hp with hacc | ⟨j, r, hj, hc, hpos⟩
    · by_cases h0 : colString r0 = ""
      · rw [if_pos h0] at hacc
        exact Or.inl hacc
      · rw [if_neg h0] at hacc
        rcases List.mem_cons.mp hacc with hpe | hacc2
        · right
          refine ⟨0, r0, by simp, ?_, ?_⟩
          · rw [hpe]
          · rw [hpe]
            simp
        · exact Or.inl hacc2
    · right
      exact ⟨j + 1, r, by simpa using hj, hc, by omega⟩

theorem idxLookup_row (store : Store) (d : String) (k : Nat)
    (h : idxLookup (read_date_index store) d = some k) :
    ∃ j r, store[j + 1]? = some r ∧ colString r = d ∧ k = 2 + j := by
  unfold idxLookup at h
  obtain ⟨p, hfind, hp2⟩ := Option.map_eq_some'.mp h
  have hpd : p.1 = d := by
    have := List.find?_some hfind
    simpa using this
  have hpm : p ∈ read_date_index store := List.mem_of_find?_eq_some hfind
  unfold read_date_index at hpm
  rcases buildIndex_mem (store.drop 1) 2 [] p hpm with hacc | ⟨j, r, hj, hc, hpos⟩
  · simp at hacc
  · refine ⟨j, r, ?_, ?_, ?_⟩
    · rw [show j + 1 = 1 + j from by omega, ← List.getElem?_drop]
      exact hj
    · rw [← hpd]
      exact hc
    · omega

theorem buildIndex_congr : ∀ (rs rs' : List Row) (i : Nat)
    (acc : List (String × Nat)),
    rs.map colString = rs'.map colString →
    buildIndex i rs acc = buildIndex i rs' acc := by
  intro rs
  induction rs with
  | nil =>
    intro rs' i acc h
    cases rs' with
    | nil => rfl
    | cons r' rest' => simp at h
  | cons r rest ih =>
    intro rs' i acc h
    cases rs' with
    | nil => simp at h
    | cons r' rest' =>
      simp only [List.map_cons, List.cons.injEq] at h
      simp only [buildIndex]
      rw [h.1]
      exact ih rest' (i + 1) _ h.2

theorem read_date_index_congr (s s' : Store)
    (h : s.map colString = s'.map colString) :
    read_date_index s = read_date_index s' := by
  unfold read_date_index
  apply buildIndex_congr
  rw [List.map_drop, List.map_drop, h]

end GarminSpec

namespace GarminSpec

/-- C4: re-processing a date in a second run with the same row values (the
deterministic product of identical provider data) leaves the store
bit-for-bit unchanged and is classified as an update (found in the rebuilt
RowIndex), not an append. -/
theorem c4_idempotent_rerun (store : Store) (d : String) (vals : List Dyn)
    (hne : store ≠ []) (hhead : vals.head? = some (.str d)) (hd : d ≠ "") :
    (upsertRun (upsertRun store d vals).store d vals).store =
      (upsertRun store d vals).store ∧
    (upsertRun (upsertRun store d vals).store d vals).updates = 1 ∧
    (upsertRun (upsertRun store d vals).store d vals).appends = 0 := by
  cases h : idxLookup (read_date_index store) d with
  | none =>
    have hs1 : (upsertRun store d vals).store = store ++ [appendRowVals vals] := by
      simp [upsertRun, runStep, h]
    have hlook : idxLookup (read_date_index (store ++ [appendRowVals vals])) d =
        some (store.length + 1) :=
      read_date_index_append store _ d hne (colString_appendRowVals vals d hhead) hd
    have hget : (store ++ [appendRowVals vals])[store.length]? =
        some (appendRowVals vals) := List.getElem?_concat_length store _
    have hfix : writeRowAt (store ++ [appendRowVals vals]) (store.length + 1) vals =
        store ++ [appendRowVals vals] := by
      apply writeRowAt_fix
      intro r hr
      rw [hget] at hr
      obtain rfl := (Option.some.inj hr).symm
      exact writeRowVals_append_idem vals
    refine ⟨?_, ?_, ?_⟩ <;> rw [hs1] <;> simp [upsertRun, runStep, hlook, hfix]
  | some k =>
    obtain ⟨j, r, hj, hc, hk⟩ := idxLookup_row store d k h
    have hk' : k = j + 1 + 1 := by omega
    subst hk'
    have hs1 : (upsertRun store d vals).store = writeRowAt store (j + 1 + 1) vals := by
      simp [upsertRun, runStep, h]
    have hrow_d : ∀ r', store[j + 1]? = some r' → colString r' = d := by
      intro r' h'
      rw [hj] at h'
      obtain rfl := (Option.some.inj h').symm
      exact hc
    have hmap := map_colString_writeRowAt store (j + 1) vals d hhead hrow_d
    have hidx := read_date_index_congr _ _ hmap
    have hlook2 : idxLookup (read_date_index (writeRowAt store (j + 1 + 1) vals)) d =
        some (j + 1 + 1) := by
      rw [hidx]
      exact h
    have hget2 : (writeRowAt store (j + 1 + 1) vals)[j + 1]? =
        some (writeRowVals r vals) := by
      rw [writeRowAt_getElem store (j + 1) vals, hj]
      rfl
    have hfix2 : writeRowAt (writeRowAt store (j + 1 + 1) vals) (j + 1 + 1) vals =
        writeRowAt store (j + 1 + 1) vals := by
      apply writeRowAt_fix
      intro r' hr'
      rw [hget2] at hr'
      obtain rfl := (Option.some.inj hr').symm
      exact writeRowVals_idem vals r
    refine ⟨?_, ?_, ?_⟩ <;> rw [hs1] <;> simp [upsertRun, runStep, hlook2, hfix2]

/-- C4 witness: a concrete date re-run on a fresh sheet — the first run
appends, the second run is a pure update that changes nothing. -/
theorem c4_idempotent_rerun_witness :
    (upsertRun (upsertRun [hdrRow] ("2025-03-05") [.str ("2025-03-05"), .num 1]).store
        ("2025-03-05") [.str ("2025-03-05"), .num 1]).store =
      (upsertRun [hdrRow] ("2025-03-05") [.str ("2025-03-05"), .num 1]).store ∧
    (upsertRun (upsertRun [hdrRow] ("2025-03-05") [.str ("2025-03-05"), .num 1]).store
        ("2025-03-05") [.str ("2025-03-05"), .num 1]).updates = 1 ∧
    (upsertRun (upsertRun [hdrRow] ("2025-03-05") [.str ("2025-03-05"), .num 1]).store
        ("2025-03-05") [.str ("2025-03-05"), .num 1]).appends = 0 :=
  c4_idempotent_rerun [hdrRow] ("2025-03-05") [.str ("2025-03-05"), .num 1]
    (List.cons_ne_nil _ _) rfl (by decide)

end GarminSpec
